import Mathlib

/-!
Verification development for cuckoo (src/cuckoo.c), a tool that intercepts an
executable by relocating it into a hidden scripts directory and replacing it
with a symlink to itself (install mode), and, when invoked through that
symlink, runs every executable found in that directory plus an optional
common directory in sorted order (dispatch mode).

The embedding models:
  - path strings and the strrchr-based directory/basename splitting used by
    absolutePath, basenamedup, getScriptsDir and getCommonDir;
  - the filesystem as an association list from absolute canonical paths to
    file objects (regular file with an executable bit, symlink, directory,
    other), with lstat/stat modeled as lookup, mkdir/rename/symlink as
    updates; paths are assumed canonical, so realpath is the identity on
    existing objects;
  - the install transaction (install), directory creation (makeDirectory,
    mkDirRecurse), self-path resolution (getPathToSelf);
  - the nftw scan with the forEachEntry callback, including the
    FTW_SKIP_SUBTREE logic and the sorted insertion into the global list by
    base name under strcoll, with the collation function taken as a
    parameter (the collation strcoll applies is determined by the process
    locale at run time);
  - the launch primitive (vfork/execve/waitpid outcomes) and the
    exit-code-aggregation loop of invoke, and the argument check of main.
-/

namespace Cuckoo

/-- Splits a character list at the last occurrence of a slash, mirroring
strrchr(s, 0x2f): returns the characters before the last slash and the
characters after it, or none when the list has no slash. -/
def splitLastSlashAux : List Char → Option (List Char × List Char)
  | [] => none
  | c :: rest =>
    match splitLastSlashAux rest with
    | some (d, b) => some (c :: d, b)
    | none => if c = '/' then some ([], rest) else none

/-- String version of the strrchr split: directory part and base part around
the last slash. -/
def splitAtLastSlash (s : String) : Option (String × String) :=
  match splitLastSlashAux s.data with
  | none => none
  | some (d, b) => some (String.mk d, String.mk b)

theorem no_slash_of_splitLastSlashAux_none :
    ∀ {l : List Char}, splitLastSlashAux l = none → '/' ∉ l := by
  intro l
  induction l with
  | nil => intro _ h; exact absurd h (List.not_mem_nil _)
  | cons c rest ih =>
    intro h
    simp only [splitLastSlashAux] at h
    cases hr : splitLastSlashAux rest with
    | some p => rw [hr] at h; cases p; simp at h
    | none =>
      rw [hr] at h
      by_cases hc : c = '/'
      · simp [hc] at h
      · intro hmem
        cases List.mem_cons.mp hmem with
        | inl h1 => exact hc h1.symm
        | inr h2 => exact ih hr h2

theorem splitLastSlashAux_some :
    ∀ {l d b : List Char}, splitLastSlashAux l = some (d, b) →
      l = d ++ '/' :: b ∧ '/' ∉ b := by
  intro l
  induction l with
  | nil => intro d b h; simp [splitLastSlashAux] at h
  | cons c rest ih =>
    intro d b h
    simp only [splitLastSlashAux] at h
    split at h
    next d1 b1 hr =>
      injection h with h2
      injection h2 with hd hb
      subst hd; subst hb
      obtain ⟨hrest, hnb⟩ := ih hr
      exact ⟨by simp [hrest], hnb⟩
    next hr =>
      split at h
      next hc =>
        subst hc
        injection h with h2
        injection h2 with hd hb
        subst hd; subst hb
        exact ⟨rfl, no_slash_of_splitLastSlashAux_none hr⟩
      next hc => exact absurd h (by simp)

theorem splitLastSlashAux_append (d b : List Char) (hb : '/' ∉ b) :
    splitLastSlashAux (d ++ '/' :: b) = some (d, b) := by
  induction d with
  | nil =>
    have hnone : splitLastSlashAux b = none := by
      cases hsb : splitLastSlashAux b with
      | none => rfl
      | some p =>
        obtain ⟨d1, b1⟩ := p
        obtain ⟨hb1, _⟩ := splitLastSlashAux_some hsb
        exact absurd (hb1 ▸ List.mem_append_right d1 (List.mem_cons_self _ _)) hb
    simp [splitLastSlashAux, hnone]
  | cons c d ih =>
    simp [splitLastSlashAux, ih]

theorem string_data_append (a b : String) : (a ++ b).data = a.data ++ b.data := rfl

theorem string_mk_data (s : String) : String.mk s.data = s := rfl

theorem string_length_eq (s : String) : s.length = s.data.length := rfl

/-- The strrchr split of a well-formed path dir/base where base has no slash. -/
theorem splitAtLastSlash_append (dir base : String) (hb : '/' ∉ base.data) :
    splitAtLastSlash (dir ++ "/" ++ base) = some (dir, base) := by
  have hslash : ("/" : String).data = ['/'] := rfl
  have hd : (dir ++ "/" ++ base).data = dir.data ++ '/' :: base.data := by
    rw [string_data_append, string_data_append, hslash, List.append_assoc]
    rfl
  simp only [splitAtLastSlash, hd, splitLastSlashAux_append dir.data base.data hb,
    string_mk_data]

theorem splitAtLastSlash_some {s dir base : String}
    (h : splitAtLastSlash s = some (dir, base)) :
    s.data = dir.data ++ '/' :: base.data ∧ '/' ∉ base.data := by
  simp only [splitAtLastSlash] at h
  cases haux : splitLastSlashAux s.data with
  | none => rw [haux] at h; simp at h
  | some p =>
    rw [haux] at h
    obtain ⟨d, b⟩ := p
    simp only [Option.some.injEq, Prod.mk.injEq] at h
    obtain ⟨hd, hb⟩ := h
    obtain ⟨heq, hnb⟩ := splitLastSlashAux_some haux
    subst hd; subst hb
    exact ⟨heq, hnb⟩

theorem splitAtLastSlash_length {s dir base : String}
    (h : splitAtLastSlash s = some (dir, base)) :
    s.length = dir.length + 1 + base.length := by
  obtain ⟨heq, _⟩ := splitAtLastSlash_some h
  rw [string_length_eq, string_length_eq, string_length_eq, heq,
    List.length_append, List.length_cons]
  omega

/-- basenamedup from cuckoo.c: the component after the last slash, or the
whole string when it has no slash. -/
def basenamedup (path : String) : String :=
  match splitAtLastSlash path with
  | some (_, base) => base
  | none => path

/-- File objects as distinguished by the st_mode checks in cuckoo.c. A
regular file carries whether any execute-permission bit is set. -/
inductive FsObj where
  | regular (executable : Bool)
  | symlink (target : String)
  | directory
  | other
deriving DecidableEq

/-- The filesystem: an association list from canonical absolute paths to
objects. Earlier entries shadow later ones. -/
abbrev Fs := List (String × FsObj)

/-- stat/lstat as lookup (paths are canonical, so both coincide here). -/
def Fs.find : Fs → String → Option FsObj
  | [], _ => none
  | (k, v) :: rest, p => if k = p then some v else Fs.find rest p

/-- unlink/rename source removal. -/
def Fs.remove : Fs → String → Fs
  | [], _ => []
  | (k, v) :: rest, p =>
    if k = p then Fs.remove rest p else (k, v) :: Fs.remove rest p

/-- Creating or replacing the object at a path. -/
def Fs.set (fs : Fs) (p : String) (o : FsObj) : Fs := (p, o) :: Fs.remove fs p

theorem Fs.find_remove (fs : Fs) (p q : String) :
    Fs.find (Fs.remove fs p) q = if q = p then none else Fs.find fs q := by
  induction fs with
  | nil => simp [Fs.remove, Fs.find]
  | cons kv rest ih =>
    obtain ⟨k, v⟩ := kv
    by_cases hk : k = p
    · subst hk
      have hrm : Fs.remove ((k, v) :: rest) k = Fs.remove rest k := by
        simp [Fs.remove]
      rw [hrm, ih]
      by_cases hq : q = k
      · simp [hq]
      · have hkq : ¬ k = q := fun h => hq h.symm
        simp [Fs.find, hq, hkq]
    · have hrm : Fs.remove ((k, v) :: rest) p = (k, v) :: Fs.remove rest p := by
        simp [Fs.remove, hk]
      rw [hrm]
      by_cases hkq : k = q
      · subst hkq
        have hq : ¬ k = p := hk
        simp [Fs.find, hq]
      · simp [Fs.find, hkq, ih]

theorem Fs.find_set (fs : Fs) (p q : String) (o : FsObj) :
    Fs.find (Fs.set fs p o) q = if q = p then some o else Fs.find fs q := by
  unfold Fs.set
  by_cases hq : q = p
  · simp [Fs.find, hq]
  · have hpq : ¬ p = q := fun h => hq h.symm
    simp [Fs.find, hpq, Fs.find_remove, hq]

theorem string_eq_of_data_eq {s t : String} (h : s.data = t.data) : s = t := by
  cases s; cases t; exact congrArg String.mk h

/-- absolutePath from cuckoo.c. lstat is modeled as lookup; paths are
assumed canonical so realpath is the identity (for a symlink the code keeps
the final component and canonicalizes only the directory part, so the
symlink itself is not followed). Unsupported object kinds yield NULL, as
does a failing lstat. -/
def absolutePath (fs : Fs) (path : String) : Option String :=
  match Fs.find fs path with
  | none => none
  | some (FsObj.symlink _) => some path
  | some (FsObj.regular _) => some path
  | some FsObj.directory => some path
  | some FsObj.other => none

/-- mkDirRecurse from cuckoo.c (mkdir -p): if stat succeeds the path is
left alone, otherwise the parent (dirname) is created recursively and then
the path itself. dirname of a top-level entry is the root directory, which
is assumed to exist on a real system, so the recursion stops there; the
model returns success for a path with no slash (dirname is the current
directory, which exists). -/
def mkDirRecurse (fs : Fs) (path : String) : Int × Fs :=
  match Fs.find fs path with
  | some _ => (0, fs)
  | none =>
    match hs : splitAtLastSlash path with
    | none => (0, Fs.set fs path FsObj.directory)
    | some (d, b) =>
      if hroot : path = "/" then (0, fs)
      else
        let r := mkDirRecurse fs (if d = "" then "/" else d)
        if r.1 = 0 then (0, Fs.set r.2 path FsObj.directory) else r
termination_by path.length
decreasing_by
  have hlen := splitAtLastSlash_length hs
  obtain ⟨hdata, hnb⟩ := splitAtLastSlash_some hs
  have h1 : ("/" : String).length = 1 := rfl
  have h0 : ("" : String).length = 0 := rfl
  split
  next hd =>
    subst hd
    have hb : b.data ≠ [] := by
      intro hnil
      apply hroot
      apply string_eq_of_data_eq
      rw [hdata, hnil]
      rfl
    have hbl : 0 < b.length := by
      rw [string_length_eq]
      exact List.length_pos.mpr hb
    rw [h1]
    rw [h0] at hlen
    omega
  next hd =>
    omega

/-- makeDirectory from cuckoo.c: returns the path if it already is a
directory, NULL if something else occupies it, and otherwise creates it
with mkDirRecurse. A stat failure other than ENOENT is not modeled (lookup
failure always means the object is absent). -/
def makeDirectory (fs : Fs) (path : String) : Option String × Fs :=
  match Fs.find fs path with
  | some FsObj.directory => (some path, fs)
  | some _ => (none, fs)
  | none =>
    let r := mkDirRecurse fs path
    if r.1 = 0 then (some path, r.2) else (none, r.2)

/-- getScriptsDir from cuckoo.c: derives dir/.base.d from the absolute
target path and ensures it exists via makeDirectory. Returns NULL when the
path has no slash (strrchr finds none). -/
def getScriptsDir (fs : Fs) (absPath : String) : Option String × Fs :=
  match splitAtLastSlash absPath with
  | none => (none, fs)
  | some (dir, base) => makeDirectory fs (dir ++ "/." ++ base ++ ".d")

/-- getCommonDir from cuckoo.c: derives /etc/cuckoo/base from the absolute
target path and ensures it exists via makeDirectory. -/
def getCommonDir (fs : Fs) (absPath : String) : Option String × Fs :=
  match splitAtLastSlash absPath with
  | none => (none, fs)
  | some (_, base) => makeDirectory fs ("/etc/cuckoo/" ++ base)

/-- getPathToSelf from cuckoo.c: reads the link /proc/self/exe into a
buffer that was first set to the empty string, and strdups the buffer. The
OS answer is the parameter: some path when readlink succeeds, none when it
fails. When readlink fails the buffer still holds the empty string, so the
function returns an empty string rather than NULL (strdup failure, the
only way to get NULL, is not modeled). -/
def getPathToSelf (osReadlink : Option String) : Option String :=
  match osReadlink with
  | some p => some p
  | none => some ""

/-- install from cuckoo.c: resolve the target, derive and create the
scripts directory, then switch on the lstat of the target: a symlink is
reported as nothing-to-do with exit 0; a regular file without any execute
bit is an error; an executable regular file is renamed to
scriptsDir/50-name and replaced by a symlink to the running executable
(getPathToSelf). Failure exits carry the errno the code reports (2 for a
vanished target, 17 for a symlink collision, -1 for unsupported types);
rename is modeled as succeeding since source and destination share a
filesystem. When a step yields NULL the code skips the rest and returns
the accumulated result, which is still 0. -/
def install (osReadlink : Option String) (fs : Fs) (arg : String) : Int × Fs :=
  match absolutePath fs arg with
  | none => (0, fs)
  | some installPath =>
    let filename := basenamedup installPath
    match getScriptsDir fs installPath with
    | (none, fs1) => (0, fs1)
    | (some scriptsDir, fs1) =>
      match Fs.find fs1 installPath with
      | none => (2, fs1)
      | some (FsObj.symlink _) => (0, fs1)
      | some (FsObj.regular ex) =>
        if ex = false then (-1, fs1)
        else
          let targetPath := scriptsDir ++ "/50-" ++ filename
          let fs2 := Fs.set (Fs.remove fs1 installPath) targetPath (FsObj.regular true)
          match getPathToSelf osReadlink with
          | none => (0, fs2)
          | some execPath =>
            match Fs.find fs2 installPath with
            | none => (0, Fs.set fs2 installPath (FsObj.symlink execPath))
            | some _ => (17, fs2)
      | some _ => (-1, fs1)

/-- The directory-derivation phase of invoke from cuckoo.c (lines 621-629):
resolve argv[0], then getScriptsDir, then getCommonDir, each nested in a
NULL check; when one fails the rest is skipped and invoke returns 0
without scanning or launching anything. Returns the two directory paths
and the possibly-updated filesystem (both helpers create their directory
when absent). -/
def invokePrepare (fs : Fs) (argv0 : String) : Option (String × String) × Fs :=
  match absolutePath fs argv0 with
  | none => (none, fs)
  | some installPath =>
    match getScriptsDir fs installPath with
    | (none, fs1) => (none, fs1)
    | (some sd, fs1) =>
      match getCommonDir fs1 installPath with
      | (none, fs2) => (none, fs2)
      | (some cd, fs2) => (some (sd, cd), fs2)

/-- How the child process ends, as seen by waitpid in the parent. -/
inductive ChildOutcome where
  | exited (code : Nat)
  | signaled (sig : Nat)
deriving DecidableEq

/-- The three arms of the switch on the vfork result in launch. The child
arm models the case where execve returns, which only happens on failure
(vanished file, revoked permission, exec-format error). -/
inductive VforkCase where
  | forkFailed (err : Int)
  | childExecFailed
  | parentOf (st : ChildOutcome)
deriving DecidableEq

/-- launch from cuckoo.c, as the value the switch produces in each arm:
a failed vfork returns errno; the parent returns WEXITSTATUS when the
child exited normally and leaves result at 0 when WIFEXITED is false
(child killed by a signal); in the child, a failed execve falls through
the break with result still 0, so the child arm returns 0 (the code never
calls _exit after execve, so no failure code is produced there). -/
def launch : VforkCase → Int
  | VforkCase.forkFailed err => err
  | VforkCase.childExecFailed => 0
  | VforkCase.parentOf (ChildOutcome.exited code) => (code : Int)
  | VforkCase.parentOf (ChildOutcome.signaled _) => 0

/-- One collected executable: the full path and the base name the
nameOffset field points at (the component after the last slash). -/
structure tExecutable where
  path : String
  name : String
deriving DecidableEq

/-- The sorted insertion that forEachEntry performs on the global list:
walk until the first element whose base name collates strictly after the
new one, and insert in front of it (so after all entries collating less
than or equal). cmp is the collation strcoll applies under the process
locale. -/
def insertExecutable (cmp : String → String → Int) (e : tExecutable) :
    List tExecutable → List tExecutable
  | [] => [e]
  | x :: xs =>
    if cmp e.name x.name < 0 then e :: x :: xs
    else x :: insertExecutable cmp e xs

/-- The entry kinds nftw reports that forEachEntry distinguishes: FTW_D
and FTW_DNR for directories (FTW_DP needs FTW_DEPTH, which invoke does
not pass), FTW_F for regular files. -/
inductive FtwType where
  | d
  | dnr
  | f
deriving DecidableEq

/-- The FTW_ACTIONRETVAL answers forEachEntry uses. -/
inductive FtwAction where
  | cont
  | skipSubtree
deriving DecidableEq

/-- forEachEntry from cuckoo.c: directories below the topmost level answer
FTW_SKIP_SUBTREE; a file that faccessat reports executable (the
executable flag) is inserted into the list ordered by base name under
cmp; everything else is ignored. -/
def forEachEntry (cmp : String → String → Int) (path : String)
    (executable : Bool) (entryType : FtwType) (level : Nat)
    (head : List tExecutable) : FtwAction × List tExecutable :=
  match entryType with
  | FtwType.d =>
    if level > 0 then (FtwAction.skipSubtree, head) else (FtwAction.cont, head)
  | FtwType.dnr =>
    if level > 0 then (FtwAction.skipSubtree, head) else (FtwAction.cont, head)
  | FtwType.f =>
    if executable then
      (FtwAction.cont, insertExecutable cmp ⟨path, basenamedup path⟩ head)
    else (FtwAction.cont, head)

/-- A directory entry for the scan model: a regular file with its
faccessat executability, or a subdirectory with its own entries. -/
inductive DirTree where
  | file (name : String) (executable : Bool)
  | dir (name : String) (children : List DirTree)

mutual

/-- The nftw traversal of one entry: report it to forEachEntry with its
full path and level, and descend into a directory only when the callback
answers FTW_CONTINUE. -/
def nftwVisit (cmp : String → String → Int) (parent : String) (level : Nat)
    (head : List tExecutable) : DirTree → List tExecutable
  | DirTree.file n ex =>
    (forEachEntry cmp (parent ++ "/" ++ n) ex FtwType.f level head).2
  | DirTree.dir n children =>
    match forEachEntry cmp (parent ++ "/" ++ n) true FtwType.d level head with
    | (FtwAction.skipSubtree, h) => h
    | (FtwAction.cont, h) =>
      nftwVisitList cmp (parent ++ "/" ++ n) (level + 1) h children

/-- The nftw traversal of a sequence of sibling entries, in order. -/
def nftwVisitList (cmp : String → String → Int) (parent : String)
    (level : Nat) (head : List tExecutable) :
    List DirTree → List tExecutable
  | [] => head
  | t :: ts => nftwVisitList cmp parent level (nftwVisit cmp parent level head t) ts

end

/-- nftw as invoke calls it, on a root directory path with the given
entries: the root itself is reported at level 0 (forEachEntry answers
FTW_CONTINUE there), then its entries are walked at level 1. -/
def nftw (cmp : String → String → Int) (rootPath : String)
    (children : List DirTree) (head : List tExecutable) : List tExecutable :=
  match forEachEntry cmp rootPath true FtwType.d 0 head with
  | (FtwAction.skipSubtree, h) => h
  | (FtwAction.cont, h) => nftwVisitList cmp rootPath 1 h children

/-- The two scans of invoke (lines 637-640): the scripts directory is
walked first into the empty global list, then the common directory is
walked into the same list. -/
def dispatchEntries (cmp : String → String → Int)
    (scriptsDir commonDir : String)
    (scriptsEntries commonEntries : List DirTree) : List tExecutable :=
  nftw cmp commonDir commonEntries (nftw cmp scriptsDir scriptsEntries [])

/-- The launch-and-aggregate loop of invoke (lines 642-657): launch each
entry in list order and keep the first nonzero launch result as the
overall result. launchRes gives each entry its launch return value. -/
def invokeLoop (launchRes : tExecutable → Int) (entries : List tExecutable) : Int :=
  entries.foldl
    (fun result e =>
      let res := launchRes e
      if result = 0 ∧ res ≠ 0 then res else result)
    0

/-- The first nonzero value of a list, or 0. -/
def firstNonZero : List Int → Int
  | [] => 0
  | x :: xs => if x ≠ 0 then x else firstNonZero xs

/-- The collation strcoll applies in the locale the program runs under.
cuckoo.c never calls setlocale, so the process stays in the startup C
locale, where strcoll collates by character code; that byte-wise
comparison is used here as the concrete collation instance. -/
def charListCmp : List Char → List Char → Int
  | [], [] => 0
  | [], _ :: _ => -1
  | _ :: _, [] => 1
  | a :: as, b :: bs =>
    if a.toNat < b.toNat then -1
    else if b.toNat < a.toNat then 1
    else charListCmp as bs

/-- strcoll on strings, in the C locale (see charListCmp). -/
def strcoll (a b : String) : Int := charListCmp a.data b.data

/-- The result of one run of main: the exit code, the filesystem, and
whether the usage text was printed. -/
structure MainOut where
  exit : Int
  fs : Fs
  printedUsage : Bool
deriving DecidableEq

/-- main from cuckoo.c: compare the base name of argv[0] with the
canonical installer name cuckoo; in installer mode, print usage when argc
is not 2 or argv[1] is NULL or empty (the result variable stays 0), else
run install; in any other mode run invoke, abstracted here as the
dispatch parameter. argv[1] being a NULL pointer is modeled as none. -/
def main (dispatch : Fs → Int × Fs) (osReadlink : Option String) (fs : Fs)
    (argv0 : String) (argvRest : List (Option String)) : MainOut :=
  let myName := basenamedup argv0
  if myName = "cuckoo" then
    match argvRest with
    | [some a] =>
      if a.length < 1 then { exit := 0, fs := fs, printedUsage := true }
      else
        let r := install osReadlink fs a
        { exit := r.1, fs := r.2, printedUsage := false }
    | _ => { exit := 0, fs := fs, printedUsage := true }
  else
    let r := dispatch fs
    { exit := r.1, fs := r.2, printedUsage := false }

/-- The argument shapes that make main print usage in installer mode:
argc not 2, a NULL argv[1], or an empty argv[1]. -/
def badArgs : List (Option String) → Bool
  | [some a] => decide (a.length < 1)
  | _ => true

/-- The order the scan keeps the list in: a precedes b when b does not
collate strictly before a (the insertion in forEachEntry walks past every
element not collating strictly after the new entry). -/
def collLe (cmp : String → String → Int) (a b : tExecutable) : Prop :=
  ¬ cmp b.name a.name < 0

instance (cmp : String → String → Int) (a b : tExecutable) :
    Decidable (collLe cmp a b) := by
  unfold collLe; infer_instance

/-- The immediate executable regular files of a directory listing, in
listing order, as entries with their full paths: the set of entries a
scan of that directory collects (subdirectories contribute nothing). -/
def immediateExecutables (path : String) : List DirTree → List tExecutable
  | [] => []
  | DirTree.file n ex :: ts =>
    (if ex then [⟨path ++ "/" ++ n, basenamedup (path ++ "/" ++ n)⟩] else [])
      ++ immediateExecutables path ts
  | DirTree.dir _ _ :: ts => immediateExecutables path ts

/-- A small concrete filesystem with an installed target /usr/bin/foo and
an existing /etc/cuckoo root but no common directory for foo. -/
def exampleFs : Fs :=
  [("/usr/bin", FsObj.directory),
   ("/usr/bin/foo", FsObj.symlink "/opt/cuckoo/cuckoo"),
   ("/usr/bin/.foo.d", FsObj.directory),
   ("/etc/cuckoo", FsObj.directory)]

theorem invokeLoop_foldl (f : tExecutable → Int) (entries : List tExecutable)
    (r : Int) :
    entries.foldl
      (fun result e =>
        let res := f e
        if result = 0 ∧ res ≠ 0 then res else result)
      r = if r = 0 then firstNonZero (entries.map f) else r := by
  induction entries generalizing r with
  | nil =>
    simp only [List.foldl_nil, List.map_nil, firstNonZero]
    by_cases hr : r = 0
    · simp [hr]
    · simp [hr]
  | cons e es ih =>
    simp only [List.foldl_cons, List.map_cons, firstNonZero]
    by_cases hr : r = 0
    · subst hr
      by_cases hf : f e = 0
      · simp [hf, ih]
      · simp [hf, ih]
    · simp [hr, ih]

theorem invokeLoop_eq (f : tExecutable → Int) (entries : List tExecutable) :
    invokeLoop f entries = firstNonZero (entries.map f) := by
  rw [invokeLoop, invokeLoop_foldl]
  simp

theorem firstNonZero_append_zero (xs ys : List Int) :
    firstNonZero (xs ++ 0 :: ys) = firstNonZero (xs ++ ys) := by
  induction xs with
  | nil => simp [firstNonZero]
  | cons x xs ih =>
    have h1 : firstNonZero ((x :: xs) ++ 0 :: ys) =
        if x ≠ 0 then x else firstNonZero (xs ++ 0 :: ys) := rfl
    have h2 : firstNonZero ((x :: xs) ++ ys) =
        if x ≠ 0 then x else firstNonZero (xs ++ ys) := rfl
    rw [h1, h2, ih]

/-- C1: over the ordered list of discovered entries, the dispatcher exit
code is the first nonzero launch result in launch order; with all-zero
results or no entries at all it is zero. -/
theorem invoke_first_nonzero_exit (f : tExecutable → Int)
    (entries : List tExecutable) :
    invokeLoop f entries = firstNonZero (entries.map f) ∧ invokeLoop f [] = 0 :=
  ⟨invokeLoop_eq f entries, rfl⟩

/-- C4 (code bug): when execve fails in the child (vanished executable,
revoked permission, exec-format error) the child arm of launch falls
through the break with result still 0 and never calls _exit, so the
failed entry produces 0, not the nonzero code the spec requires. -/
theorem launch_exec_failure_returns_zero : launch VforkCase.childExecFailed = 0 := rfl

/-- C7 (corrected): getPathToSelf returns exactly the path the OS reports
for the running image when readlink succeeds, but when the OS cannot
supply it the function returns the empty string (a usable value), not a
failure. -/
theorem getPathToSelf_spec (s : String) :
    getPathToSelf (some s) = some s ∧ getPathToSelf none = some "" := ⟨rfl, rfl⟩

/-- C7 counterexample: with the OS unable to supply the self path,
getPathToSelf still returns a value, the empty string, instead of
failing. -/
theorem getPathToSelf_failure_counterexample :
    getPathToSelf none ≠ none ∧ getPathToSelf none = some "" := by
  constructor
  · intro h; simp [getPathToSelf] at h
  · rfl

/-- C10: a child torn down by a signal leaves WIFEXITED false, so launch
returns the initial 0, and an entry with launch result 0 never changes
the aggregate exit code of the dispatch loop. -/
theorem signal_killed_child_contributes_zero (sig : Nat)
    (f : tExecutable → Int) (e : tExecutable) (pre post : List tExecutable)
    (hf : f e = launch (VforkCase.parentOf (ChildOutcome.signaled sig))) :
    f e = 0 ∧ invokeLoop f (pre ++ e :: post) = invokeLoop f (pre ++ post) := by
  have h0 : f e = 0 := by rw [hf]; rfl
  refine ⟨h0, ?_⟩
  rw [invokeLoop_eq, invokeLoop_eq, List.map_append, List.map_append,
    List.map_cons, h0, firstNonZero_append_zero]

/-- C10 witness at a concrete signal and chain. -/
theorem signal_killed_child_contributes_zero_witness :
    (fun _ : tExecutable =>
        launch (VforkCase.parentOf (ChildOutcome.signaled 9))) ⟨"/s/x", "x"⟩ = 0 ∧
      invokeLoop
        (fun _ : tExecutable =>
          launch (VforkCase.parentOf (ChildOutcome.signaled 9)))
        ([] ++ ⟨"/s/x", "x"⟩ :: []) =
      invokeLoop
        (fun _ : tExecutable =>
          launch (VforkCase.parentOf (ChildOutcome.signaled 9)))
        ([] ++ []) :=
  signal_killed_child_contributes_zero 9
    (fun _ : tExecutable => launch (VforkCase.parentOf (ChildOutcome.signaled 9)))
    ⟨"/s/x", "x"⟩ [] [] rfl

/-- C5 counterexample: invoked as cuckoo with no argument at all, the
program prints usage but main returns 0, not the nonzero exit code the
claim requires (the result variable is initialized to 0 and the usage
branch never changes it). -/
theorem usage_exit_code_counterexample :
    main (fun fs => (0, fs)) (some "/opt/cuckoo/cuckoo") [] "cuckoo" [] =
      { exit := 0, fs := [], printedUsage := true } := by decide

/-- C5 (corrected): under the canonical installer name, any argument
count other than exactly one positional argument, or a missing or empty
argument, prints usage, leaves the filesystem untouched, and returns
exit code 0 (not nonzero). -/
theorem usage_returns_zero_no_fs_change (dispatch : Fs → Int × Fs)
    (osReadlink : Option String) (fs : Fs) (argv0 : String)
    (rest : List (Option String)) (hname : basenamedup argv0 = "cuckoo")
    (hbad : badArgs rest = true) :
    main dispatch osReadlink fs argv0 rest =
      { exit := 0, fs := fs, printedUsage := true } := by
  cases rest with
  | nil => simp [main, hname]
  | cons a rest2 =>
    cases rest2 with
    | cons b rest3 => cases a <;> simp [main, hname]
    | nil =>
      cases a with
      | none => simp [main, hname]
      | some s =>
        have hl : s.length < 1 := by simpa [badArgs] using hbad
        simp [main, hname, hl]

/-- C5 witness at a concrete bad invocation (an empty argument). -/
theorem usage_returns_zero_no_fs_change_witness :
    basenamedup "/usr/local/bin/cuckoo" = "cuckoo" ∧
      badArgs [some ""] = true ∧
      main (fun fs => (0, fs)) (some "/opt/cuckoo/cuckoo") exampleFs
        "/usr/local/bin/cuckoo" [some ""] =
      { exit := 0, fs := exampleFs, printedUsage := true } :=
  ⟨by decide, by decide,
    usage_returns_zero_no_fs_change (fun fs => (0, fs)) (some "/opt/cuckoo/cuckoo")
      exampleFs "/usr/local/bin/cuckoo" [some ""] (by decide) (by decide)⟩

theorem nftwVisit_file (cmp : String → String → Int) (parent : String)
    (level : Nat) (head : List tExecutable) (n : String) (ex : Bool) :
    nftwVisit cmp parent level head (DirTree.file n ex) =
      if ex then
        insertExecutable cmp ⟨parent ++ "/" ++ n, basenamedup (parent ++ "/" ++ n)⟩ head
      else head := by
  rw [nftwVisit]
  unfold forEachEntry
  cases ex <;> simp

theorem nftwVisit_dir_skip (cmp : String → String → Int) (parent : String)
    (level : Nat) (hlev : 0 < level) (head : List tExecutable) (n : String)
    (children : List DirTree) :
    nftwVisit cmp parent level head (DirTree.dir n children) = head := by
  rw [nftwVisit]
  unfold forEachEntry
  simp [hlev]

theorem nftwVisitList_cons (cmp : String → String → Int) (parent : String)
    (level : Nat) (head : List tExecutable) (t : DirTree) (ts : List DirTree) :
    nftwVisitList cmp parent level head (t :: ts) =
      nftwVisitList cmp parent level (nftwVisit cmp parent level head t) ts := by
  rw [nftwVisitList]

theorem nftwVisitList_subdir_dropped (cmp : String → String → Int)
    (parent : String) (level : Nat) (hlev : 0 < level) (dname : String)
    (grand : List DirTree) (pre post : List DirTree) :
    ∀ head, nftwVisitList cmp parent level head (pre ++ DirTree.dir dname grand :: post) =
      nftwVisitList cmp parent level head (pre ++ post) := by
  induction pre with
  | nil =>
    intro head
    simp only [List.nil_append, nftwVisitList_cons,
      nftwVisit_dir_skip cmp parent level hlev]
  | cons t pre ih =>
    intro head
    simp only [List.cons_append, nftwVisitList_cons, ih]

theorem nftw_def (cmp : String → String → Int) (rootPath : String)
    (children : List DirTree) (head : List tExecutable) :
    nftw cmp rootPath children head = nftwVisitList cmp rootPath 1 head children := by
  rw [nftw]
  unfold forEachEntry
  simp

theorem charListCmp_neg : ∀ (a b : List Char), charListCmp a b = -charListCmp b a := by
  intro a
  induction a with
  | nil =>
    intro b
    cases b with
    | nil => rfl
    | cons c cs => rfl
  | cons c cs ih =>
    intro b
    cases b with
    | nil => rfl
    | cons d ds =>
      simp only [charListCmp]
      by_cases h1 : c.toNat < d.toNat
      · have h2 : ¬ d.toNat < c.toNat := by omega
        simp [h1, h2]
      · by_cases h2 : d.toNat < c.toNat
        · simp [h1, h2]
        · simp [h1, h2, ih ds]

theorem charListCmp_lt_asymm {a b : List Char} (h : charListCmp a b < 0) :
    ¬ charListCmp b a < 0 := by
  rw [charListCmp_neg] at h
  omega

theorem charListCmp_lt_trans :
    ∀ (a b c : List Char), charListCmp a b < 0 → charListCmp b c < 0 →
      charListCmp a c < 0 := by
  intro a
  induction a with
  | nil =>
    intro b c hab hbc
    cases b with
    | nil => exact hbc
    | cons d ds =>
      cases c with
      | nil => simp [charListCmp] at hbc
      | cons e es => simp [charListCmp]
  | cons x xs ih =>
    intro b c hab hbc
    cases b with
    | nil => simp [charListCmp] at hab
    | cons d ds =>
      cases c with
      | nil => simp [charListCmp] at hbc
      | cons e es =>
        simp only [charListCmp] at hab hbc ⊢
        by_cases h1 : x.toNat < d.toNat
        · by_cases h2 : d.toNat < e.toNat
          · have : x.toNat < e.toNat := by omega
            simp [this]
          · by_cases h3 : e.toNat < d.toNat
            · simp [h2, h3] at hbc
            · have : x.toNat < e.toNat := by omega
              simp [this]
        · by_cases h4 : d.toNat < x.toNat
          · simp [h1, h4] at hab
          · by_cases h2 : d.toNat < e.toNat
            · have : x.toNat < e.toNat := by omega
              simp [this]
            · by_cases h3 : e.toNat < d.toNat
              · simp [h2, h3] at hbc
              · have h5 : ¬ x.toNat < e.toNat := by omega
                have h6 : ¬ e.toNat < x.toNat := by omega
                simp only [h1, h4, if_neg, ite_false] at hab
                simp only [h2, h3, if_neg, ite_false] at hbc
                simp [h5, h6]
                exact ih ds es hab hbc

theorem strcoll_lt_asymm (a b : String) (h : strcoll a b < 0) :
    ¬ strcoll b a < 0 := charListCmp_lt_asymm h

theorem strcoll_lt_trans (a b c : String) (hab : strcoll a b < 0)
    (hbc : strcoll b c < 0) : strcoll a c < 0 :=
  charListCmp_lt_trans a.data b.data c.data hab hbc

theorem mem_insertExecutable (cmp : String → String → Int) (e : tExecutable) :
    ∀ {l x}, x ∈ insertExecutable cmp e l → x = e ∨ x ∈ l := by
  intro l
  induction l with
  | nil =>
    intro x hx
    simp [insertExecutable] at hx
    exact Or.inl hx
  | cons y ys ih =>
    intro x hx
    simp only [insertExecutable] at hx
    by_cases hc : cmp e.name y.name < 0
    · rw [if_pos hc] at hx
      rcases List.mem_cons.mp hx with h | h
      · exact Or.inl h
      · exact Or.inr h
    · rw [if_neg hc] at hx
      rcases List.mem_cons.mp hx with h | h
      · exact Or.inr (h ▸ List.mem_cons_self y ys)
      · rcases ih h with h2 | h2
        · exact Or.inl h2
        · exact Or.inr (List.mem_cons_of_mem y h2)

theorem pairwise_insertExecutable (cmp : String → String → Int)
    (hasym : ∀ a b, cmp a b < 0 → ¬ cmp b a < 0)
    (htrans : ∀ a b c, cmp a b < 0 → cmp b c < 0 → cmp a c < 0)
    (e : tExecutable) :
    ∀ {l}, List.Pairwise (collLe cmp) l →
      List.Pairwise (collLe cmp) (insertExecutable cmp e l) := by
  intro l
  induction l with
  | nil =>
    intro _
    simp [insertExecutable]
  | cons x xs ih =>
    intro hl
    rw [List.pairwise_cons] at hl
    obtain ⟨hx, hxs⟩ := hl
    simp only [insertExecutable]
    by_cases hc : cmp e.name x.name < 0
    · rw [if_pos hc]
      rw [List.pairwise_cons]
      constructor
      · intro y hy
        rcases List.mem_cons.mp hy with h | h
        · subst h
          exact hasym _ _ hc
        · intro hlt
          exact hx y h (htrans _ _ _ hlt hc)
      · rw [List.pairwise_cons]
        exact ⟨hx, hxs⟩
    · rw [if_neg hc]
      rw [List.pairwise_cons]
      constructor
      · intro y hy
        rcases mem_insertExecutable cmp e hy with h | h
        · subst h
          exact hc
        · exact hx y h
      · exact ih hxs

theorem perm_insertExecutable (cmp : String → String → Int) (e : tExecutable) :
    ∀ l, List.Perm (insertExecutable cmp e l) (e :: l) := by
  intro l
  induction l with
  | nil => simp [insertExecutable]
  | cons x xs ih =>
    simp only [insertExecutable]
    by_cases hc : cmp e.name x.name < 0
    · rw [if_pos hc]
    · rw [if_neg hc]
      exact (ih.cons x).trans (List.Perm.swap e x xs)

theorem nftwVisitList_pairwise (cmp : String → String → Int)
    (hasym : ∀ a b, cmp a b < 0 → ¬ cmp b a < 0)
    (htrans : ∀ a b c, cmp a b < 0 → cmp b c < 0 → cmp a c < 0)
    (parent : String) (level : Nat) (hlev : 0 < level) :
    ∀ (ts : List DirTree) (head : List tExecutable),
      List.Pairwise (collLe cmp) head →
        List.Pairwise (collLe cmp) (nftwVisitList cmp parent level head ts) := by
  intro ts
  induction ts with
  | nil =>
    intro head hh
    exact hh
  | cons t tss ih =>
    intro head hh
    rw [nftwVisitList_cons]
    apply ih
    cases t with
    | file n ex =>
      rw [nftwVisit_file]
      cases ex with
      | false => exact hh
      | true =>
        simp only [if_pos]
        exact pairwise_insertExecutable cmp hasym htrans _ hh
    | dir n children =>
      rw [nftwVisit_dir_skip cmp parent level hlev]
      exact hh

theorem nftwVisitList_perm (cmp : String → String → Int) (parent : String)
    (level : Nat) (hlev : 0 < level) :
    ∀ (ts : List DirTree) (head : List tExecutable),
      List.Perm (nftwVisitList cmp parent level head ts)
        (immediateExecutables parent ts ++ head) := by
  intro ts
  induction ts with
  | nil =>
    intro head
    simp [nftwVisitList, immediateExecutables]
  | cons t tss ih =>
    intro head
    rw [nftwVisitList_cons]
    cases t with
    | file n ex =>
      rw [nftwVisit_file]
      cases ex with
      | false =>
        simp only [if_neg Bool.false_ne_true, immediateExecutables]
        simpa using ih head
      | true =>
        simp only [if_pos, immediateExecutables]
        have h1 := ih (insertExecutable cmp
          ⟨parent ++ "/" ++ n, basenamedup (parent ++ "/" ++ n)⟩ head)
        have h2 : List.Perm
            (immediateExecutables parent tss ++ insertExecutable cmp
              ⟨parent ++ "/" ++ n, basenamedup (parent ++ "/" ++ n)⟩ head)
            (immediateExecutables parent tss ++
              (⟨parent ++ "/" ++ n, basenamedup (parent ++ "/" ++ n)⟩ :: head)) :=
          List.Perm.append_left _ (perm_insertExecutable cmp _ head)
        have h3 := h1.trans (h2.trans (List.perm_middle.symm.symm))
        simpa using h3
    | dir n children =>
      rw [nftwVisit_dir_skip cmp parent level hlev]
      simp only [immediateExecutables]
      exact ih head

theorem nftw_pairwise (cmp : String → String → Int)
    (hasym : ∀ a b, cmp a b < 0 → ¬ cmp b a < 0)
    (htrans : ∀ a b c, cmp a b < 0 → cmp b c < 0 → cmp a c < 0)
    (rootPath : String) (children : List DirTree) (head : List tExecutable)
    (hh : List.Pairwise (collLe cmp) head) :
    List.Pairwise (collLe cmp) (nftw cmp rootPath children head) := by
  rw [nftw_def]
  exact nftwVisitList_pairwise cmp hasym htrans rootPath 1 Nat.one_pos children head hh

theorem nftw_perm (cmp : String → String → Int) (rootPath : String)
    (children : List DirTree) (head : List tExecutable) :
    List.Perm (nftw cmp rootPath children head)
      (immediateExecutables rootPath children ++ head) := by
  rw [nftw_def]
  exact nftwVisitList_perm cmp rootPath 1 Nat.one_pos children head

/-- C9: the scan reports the top directory at level 0 and answers
FTW_SKIP_SUBTREE for every directory at a deeper level, so a subdirectory
of the scanned directory, together with everything inside it at any
depth, contributes nothing to the collected list: the scan of a listing
with the subdirectory equals the scan of the listing without it, and so
nothing inside it is ever launched. -/
theorem scan_skips_subdirectories (cmp : String → String → Int)
    (rootPath dname : String) (grand : List DirTree)
    (pre post : List DirTree) (head : List tExecutable) :
    nftw cmp rootPath (pre ++ DirTree.dir dname grand :: post) head =
      nftw cmp rootPath (pre ++ post) head := by
  rw [nftw_def, nftw_def, nftwVisitList_subdir_dropped cmp rootPath 1 Nat.one_pos]

/-- C3: the scan keeps the collected entries ordered by base name under
the collation strcoll applies (modeled as any collation whose strict
order is asymmetric and transitive), and on a directory holding exactly
the executable files b.sh, a.sh, c.sh the launch list is a.sh, b.sh,
c.sh. -/
theorem scan_sorted_by_basename (cmp : String → String → Int)
    (hasym : ∀ a b, cmp a b < 0 → ¬ cmp b a < 0)
    (htrans : ∀ a b c, cmp a b < 0 → cmp b c < 0 → cmp a c < 0)
    (rootPath : String) (children : List DirTree) :
    List.Pairwise (collLe cmp) (nftw cmp rootPath children []) ∧
      (nftw strcoll "/s"
        [DirTree.file "b.sh" true, DirTree.file "a.sh" true, DirTree.file "c.sh" true]
        []).map tExecutable.name = ["a.sh", "b.sh", "c.sh"] :=
  ⟨nftw_pairwise cmp hasym htrans rootPath children [] List.Pairwise.nil, by decide⟩

/-- C3 witness: the sortedness theorem applied to the concrete C-locale
collation of strcoll and the example directory. -/
theorem scan_sorted_by_basename_witness :
    List.Pairwise (collLe strcoll)
      (nftw strcoll "/s"
        [DirTree.file "b.sh" true, DirTree.file "a.sh" true, DirTree.file "c.sh" true]
        []) ∧
      (nftw strcoll "/s"
        [DirTree.file "b.sh" true, DirTree.file "a.sh" true, DirTree.file "c.sh" true]
        []).map tExecutable.name = ["a.sh", "b.sh", "c.sh"] :=
  scan_sorted_by_basename strcoll strcoll_lt_asymm strcoll_lt_trans "/s"
    [DirTree.file "b.sh" true, DirTree.file "a.sh" true, DirTree.file "c.sh" true]

/-- C2 counterexample: with executable b in the scripts directory and
executable a in the common directory, the launch list begins with the
common-directory entry, because the second nftw inserts into the same
sorted list instead of appending after the scripts-directory sequence;
the claim that every scripts-directory entry is launched before every
common-directory entry fails here. -/
theorem dispatch_order_counterexample :
    dispatchEntries strcoll "/usr/bin/.foo.d" "/etc/cuckoo/foo"
      [DirTree.file "b" true] [DirTree.file "a" true] =
      [⟨"/etc/cuckoo/foo/a", "a"⟩, ⟨"/usr/bin/.foo.d/b", "b"⟩] := by decide

/-- C2 (corrected): the launch order is not the concatenation of the two
scanned sequences; both scans insert into one shared list, so the launch
order is the single merged sequence of all entries of both directories
sorted together by base name: it is ordered under the collation and is a
permutation of the immediate executables of the scripts directory
followed by those of the common directory. -/
theorem dispatch_merged_sorted (cmp : String → String → Int)
    (hasym : ∀ a b, cmp a b < 0 → ¬ cmp b a < 0)
    (htrans : ∀ a b c, cmp a b < 0 → cmp b c < 0 → cmp a c < 0)
    (scriptsDir commonDir : String)
    (scriptsEntries commonEntries : List DirTree) :
    List.Pairwise (collLe cmp)
      (dispatchEntries cmp scriptsDir commonDir scriptsEntries commonEntries) ∧
    List.Perm (dispatchEntries cmp scriptsDir commonDir scriptsEntries commonEntries)
      (immediateExecutables scriptsDir scriptsEntries ++
        immediateExecutables commonDir commonEntries) := by
  constructor
  · exact nftw_pairwise cmp hasym htrans commonDir commonEntries _
      (nftw_pairwise cmp hasym htrans scriptsDir scriptsEntries [] List.Pairwise.nil)
  · have h1 : List.Perm (nftw cmp scriptsDir scriptsEntries [])
        (immediateExecutables scriptsDir scriptsEntries) := by
      simpa using nftw_perm cmp scriptsDir scriptsEntries []
    have h2 := nftw_perm cmp commonDir commonEntries
      (nftw cmp scriptsDir scriptsEntries [])
    have h3 := h2.trans (List.Perm.append_left _ h1)
    exact h3.trans (List.perm_append_comm)

/-- C2 witness: the merged-order theorem applied to the concrete
counterexample directories under the C-locale collation of strcoll. -/
theorem dispatch_merged_sorted_witness :
    List.Pairwise (collLe strcoll)
      (dispatchEntries strcoll "/usr/bin/.foo.d" "/etc/cuckoo/foo"
        [DirTree.file "b" true] [DirTree.file "a" true]) ∧
    List.Perm
      (dispatchEntries strcoll "/usr/bin/.foo.d" "/etc/cuckoo/foo"
        [DirTree.file "b" true] [DirTree.file "a" true])
      (immediateExecutables "/usr/bin/.foo.d" [DirTree.file "b" true] ++
        immediateExecutables "/etc/cuckoo/foo" [DirTree.file "a" true]) :=
  dispatch_merged_sorted strcoll strcoll_lt_asymm strcoll_lt_trans
    "/usr/bin/.foo.d" "/etc/cuckoo/foo" [DirTree.file "b" true] [DirTree.file "a" true]

theorem mkDirRecurse_one_level (fs : Fs) (parentDir base : String)
    (hb : '/' ∉ base.data) (hparent : parentDir ≠ "")
    (habsent : Fs.find fs (parentDir ++ "/" ++ base) = none)
    (hhave : Fs.find fs parentDir = some FsObj.directory) :
    mkDirRecurse fs (parentDir ++ "/" ++ base) =
      (0, Fs.set fs (parentDir ++ "/" ++ base) FsObj.directory) := by
  have hsplit : splitAtLastSlash (parentDir ++ "/" ++ base) =
      some (parentDir, base) := splitAtLastSlash_append parentDir base hb
  have hlen := splitAtLastSlash_length hsplit
  have hne : parentDir ++ "/" ++ base ≠ "/" := by
    intro h
    have h1 := congrArg String.length h
    have h2 : ("/" : String).length = 1 := rfl
    rw [h1] at hlen
    rw [h2] at hlen
    have h3 : 0 < parentDir.length := by
      rcases Nat.eq_zero_or_pos parentDir.length with h4 | h4
      · exfalso
        apply hparent
        apply string_eq_of_data_eq
        rw [string_length_eq] at h4
        rw [List.length_eq_zero.mp h4]
      · exact h4
    omega
  rw [mkDirRecurse]
  simp only [habsent]
  split
  next heq => rfl
  next d b heq =>
    rw [hsplit] at heq
    injection heq with heq2
    injection heq2 with hd hb2
    subst hd; subst hb2
    rw [dif_neg hne, if_neg hparent, mkDirRecurse]
    simp only [hhave]
    simp

theorem makeDirectory_creates (fs : Fs) (parentDir base : String)
    (hb : '/' ∉ base.data) (hparent : parentDir ≠ "")
    (habsent : Fs.find fs (parentDir ++ "/" ++ base) = none)
    (hhave : Fs.find fs parentDir = some FsObj.directory) :
    makeDirectory fs (parentDir ++ "/" ++ base) =
      (some (parentDir ++ "/" ++ base),
        Fs.set fs (parentDir ++ "/" ++ base) FsObj.directory) := by
  rw [makeDirectory]
  simp only [habsent,
    mkDirRecurse_one_level fs parentDir base hb hparent habsent hhave]
  simp

/-- C8 (corrected): the dispatcher does not treat the common directory
read-only; when /etc/cuckoo/name is absent, getCommonDir creates it (and
getScriptsDir does the same for the scripts directory), so dispatch
proceeds with a freshly created, necessarily empty common directory and
its prior absence does not make dispatch fail. -/
theorem invokePrepare_creates_commonDir (fs : Fs) (p dir base t : String)
    (hsplit : splitAtLastSlash p = some (dir, base))
    (hp : Fs.find fs p = some (FsObj.symlink t))
    (hsd : Fs.find fs (dir ++ "/." ++ base ++ ".d") = some FsObj.directory)
    (hcd : Fs.find fs ("/etc/cuckoo/" ++ base) = none)
    (hetc : Fs.find fs "/etc/cuckoo" = some FsObj.directory) :
    invokePrepare fs p =
      (some (dir ++ "/." ++ base ++ ".d", "/etc/cuckoo/" ++ base),
       Fs.set fs ("/etc/cuckoo/" ++ base) FsObj.directory) := by
  have habs : absolutePath fs p = some p := by
    rw [absolutePath]
    simp only [hp]
  have hgs : getScriptsDir fs p = (some (dir ++ "/." ++ base ++ ".d"), fs) := by
    rw [getScriptsDir]
    simp only [hsplit]
    rw [makeDirectory]
    simp only [hsd]
  have hbslash : '/' ∉ base.data := (splitAtLastSlash_some hsplit).2
  have hcpeq : ("/etc/cuckoo/" ++ base : String) = "/etc/cuckoo" ++ "/" ++ base := by
    apply string_eq_of_data_eq
    simp only [string_data_append]
    rfl
  have hetcne : ("/etc/cuckoo" : String) ≠ "" := by decide
  have hgc : getCommonDir fs p =
      (some ("/etc/cuckoo/" ++ base),
        Fs.set fs ("/etc/cuckoo/" ++ base) FsObj.directory) := by
    rw [getCommonDir]
    simp only [hsplit]
    rw [hcpeq] at hcd ⊢
    rw [makeDirectory_creates fs "/etc/cuckoo" base hbslash hetcne hcd hetc]
  rw [invokePrepare]
  simp only [habs, hgs, hgc]

theorem install_on_symlink (osr : Option String) (fs : Fs) (p t dir base : String)
    (hsplit : splitAtLastSlash p = some (dir, base))
    (hp : Fs.find fs p = some (FsObj.symlink t))
    (hsd : Fs.find fs (dir ++ "/." ++ base ++ ".d") = some FsObj.directory) :
    install osr fs p = (0, fs) := by
  have habs : absolutePath fs p = some p := by
    rw [absolutePath]
    simp only [hp]
  have hgs : getScriptsDir fs p = (some (dir ++ "/." ++ base ++ ".d"), fs) := by
    rw [getScriptsDir]
    simp only [hsplit]
    rw [makeDirectory]
    simp only [hsd]
  rw [install]
  simp only [habs, hgs, hp]

/-- C8 counterexample: on a filesystem where the common directory
/etc/cuckoo/foo does not exist, running the dispatcher directory phase
for /usr/bin/foo creates it: the dispatcher writes to the filesystem
rather than consulting the common directory read-only. -/
theorem commonDir_creation_counterexample :
    Fs.find exampleFs "/etc/cuckoo/foo" = none ∧
      Fs.find (invokePrepare exampleFs "/usr/bin/foo").2 "/etc/cuckoo/foo" =
        some FsObj.directory := by
  have key : invokePrepare exampleFs "/usr/bin/foo" =
      (some ("/usr/bin/.foo.d", "/etc/cuckoo/foo"),
       Fs.set exampleFs "/etc/cuckoo/foo" FsObj.directory) :=
    invokePrepare_creates_commonDir exampleFs "/usr/bin/foo" "/usr/bin" "foo"
      "/opt/cuckoo/cuckoo" (by decide) (by decide) (by decide) (by decide) (by decide)
  rw [key]
  constructor
  · decide
  · decide

/-- C8 witness: the creation theorem applied at the concrete example
filesystem. -/
theorem invokePrepare_creates_commonDir_witness :
    Fs.find exampleFs "/usr/bin/foo" = some (FsObj.symlink "/opt/cuckoo/cuckoo") ∧
      Fs.find exampleFs ("/etc/cuckoo/" ++ "foo") = none ∧
      invokePrepare exampleFs "/usr/bin/foo" =
        (some ("/usr/bin" ++ "/." ++ "foo" ++ ".d", "/etc/cuckoo/" ++ "foo"),
         Fs.set exampleFs ("/etc/cuckoo/" ++ "foo") FsObj.directory) :=
  ⟨by decide, by decide,
    invokePrepare_creates_commonDir exampleFs "/usr/bin/foo" "/usr/bin" "foo"
      "/opt/cuckoo/cuckoo" (by decide) (by decide) (by decide) (by decide) (by decide)⟩

/-- C6: a target whose path already holds a symlink is reported as
already installed and install returns 0 without touching anything; and a
fresh install of an executable regular file succeeds, a second install on
the same path is an exact no-op returning 0, and the final state holds
exactly one relocated file, one symlink and the scripts directory, with
every other path untouched. -/
theorem install_already_installed_idempotent :
    (∀ (osr : Option String) (fs : Fs) (p t dir base : String),
        splitAtLastSlash p = some (dir, base) →
        Fs.find fs p = some (FsObj.symlink t) →
        Fs.find fs (dir ++ "/." ++ base ++ ".d") = some FsObj.directory →
        install osr fs p = (0, fs)) ∧
    (∀ (selfPath : String) (fs : Fs) (dir name : String),
        '/' ∉ name.data →
        dir ≠ "" →
        Fs.find fs (dir ++ "/" ++ name) = some (FsObj.regular true) →
        Fs.find fs (dir ++ "/." ++ name ++ ".d") = none →
        Fs.find fs dir = some FsObj.directory →
        dir ++ "/" ++ name ≠ dir ++ "/." ++ name ++ ".d" →
        dir ++ "/" ++ name ≠ dir ++ "/." ++ name ++ ".d" ++ "/50-" ++ name →
        dir ++ "/." ++ name ++ ".d" ≠ dir ++ "/." ++ name ++ ".d" ++ "/50-" ++ name →
        dir ≠ dir ++ "/." ++ name ++ ".d" →
        ∃ fs3,
          install (some selfPath) fs (dir ++ "/" ++ name) = (0, fs3) ∧
          install (some selfPath) fs3 (dir ++ "/" ++ name) = (0, fs3) ∧
          Fs.find fs3 (dir ++ "/" ++ name) = some (FsObj.symlink selfPath) ∧
          Fs.find fs3 (dir ++ "/." ++ name ++ ".d" ++ "/50-" ++ name) =
            some (FsObj.regular true) ∧
          Fs.find fs3 (dir ++ "/." ++ name ++ ".d") = some FsObj.directory ∧
          ∀ q, q ≠ dir ++ "/" ++ name → q ≠ dir ++ "/." ++ name ++ ".d" →
            q ≠ dir ++ "/." ++ name ++ ".d" ++ "/50-" ++ name →
            Fs.find fs3 q = Fs.find fs q) := by
  constructor
  · intro osr fs p t dir base hsplit hp hsd
    exact install_on_symlink osr fs p t dir base hsplit hp hsd
  · intro selfPath fs dir name hname hdir hp hsd hparent hps hpt hst hds
    have hsplitp : splitAtLastSlash (dir ++ "/" ++ name) = some (dir, name) :=
      splitAtLastSlash_append dir name hname
    have hbase : basenamedup (dir ++ "/" ++ name) = name := by
      rw [basenamedup]
      simp only [hsplitp]
    have hsdeq : dir ++ "/." ++ name ++ ".d" = dir ++ "/" ++ ("." ++ name ++ ".d") := by
      apply string_eq_of_data_eq
      simp only [string_data_append]
      simp
    have hdot : '/' ∉ ("." ++ name ++ ".d").data := by
      intro hmem
      simp only [string_data_append, List.mem_append] at hmem
      rcases hmem with (h1 | h2) | h3
      · exact absurd h1 (by decide)
      · exact hname h2
      · exact absurd h3 (by decide)
    have hsd' : Fs.find fs (dir ++ "/" ++ ("." ++ name ++ ".d")) = none := by
      rw [← hsdeq]
      exact hsd
    have hgs : getScriptsDir fs (dir ++ "/" ++ name) =
        (some (dir ++ "/." ++ name ++ ".d"),
          Fs.set fs (dir ++ "/." ++ name ++ ".d") FsObj.directory) := by
      rw [getScriptsDir]
      simp only [hsplitp]
      rw [hsdeq]
      exact makeDirectory_creates fs dir ("." ++ name ++ ".d") hdot hdir hsd' hparent
    have habs : absolutePath fs (dir ++ "/" ++ name) = some (dir ++ "/" ++ name) := by
      rw [absolutePath]
      simp only [hp]
    have hnps : ¬ (dir ++ "/" ++ name) = dir ++ "/." ++ name ++ ".d" := hps
    have hfs1p : Fs.find (Fs.set fs (dir ++ "/." ++ name ++ ".d") FsObj.directory)
        (dir ++ "/" ++ name) = some (FsObj.regular true) := by
      rw [Fs.find_set, if_neg hnps]
      exact hp
    have hfs2p : Fs.find
        (Fs.set (Fs.remove (Fs.set fs (dir ++ "/." ++ name ++ ".d") FsObj.directory)
            (dir ++ "/" ++ name))
          (dir ++ "/." ++ name ++ ".d" ++ "/50-" ++ name) (FsObj.regular true))
        (dir ++ "/" ++ name) = none := by
      rw [Fs.find_set, if_neg hpt, Fs.find_remove, if_pos rfl]
    refine ⟨Fs.set
        (Fs.set (Fs.remove (Fs.set fs (dir ++ "/." ++ name ++ ".d") FsObj.directory)
            (dir ++ "/" ++ name))
          (dir ++ "/." ++ name ++ ".d" ++ "/50-" ++ name) (FsObj.regular true))
        (dir ++ "/" ++ name) (FsObj.symlink selfPath), ?_, ?_, ?_, ?_, ?_, ?_⟩
    case _ =>
      rw [install]
      simp only [habs, hgs, hbase, hfs1p, getPathToSelf, hfs2p]
      simp
    case _ =>
      have hfs3p : Fs.find
          (Fs.set (Fs.set (Fs.remove (Fs.set fs (dir ++ "/." ++ name ++ ".d")
              FsObj.directory) (dir ++ "/" ++ name))
            (dir ++ "/." ++ name ++ ".d" ++ "/50-" ++ name) (FsObj.regular true))
            (dir ++ "/" ++ name) (FsObj.symlink selfPath))
          (dir ++ "/" ++ name) = some (FsObj.symlink selfPath) := by
        rw [Fs.find_set, if_pos rfl]
      have hfs3sd : Fs.find
          (Fs.set (Fs.set (Fs.remove (Fs.set fs (dir ++ "/." ++ name ++ ".d")
              FsObj.directory) (dir ++ "/" ++ name))
            (dir ++ "/." ++ name ++ ".d" ++ "/50-" ++ name) (FsObj.regular true))
            (dir ++ "/" ++ name) (FsObj.symlink selfPath))
          (dir ++ "/." ++ name ++ ".d") = some FsObj.directory := by
        rw [Fs.find_set, if_neg (fun h => hps h.symm),
          Fs.find_set, if_neg hst, Fs.find_remove, if_neg (fun h => hps (h.symm)),
          Fs.find_set, if_pos rfl]
      exact install_on_symlink (some selfPath) _ (dir ++ "/" ++ name) selfPath dir name
        hsplitp hfs3p hfs3sd
    case _ =>
      rw [Fs.find_set, if_pos rfl]
    case _ =>
      rw [Fs.find_set, if_neg (fun h => hpt h.symm), Fs.find_set, if_pos rfl]
    case _ =>
      rw [Fs.find_set, if_neg (fun h => hps h.symm),
        Fs.find_set, if_neg hst, Fs.find_remove, if_neg (fun h => hps h.symm),
        Fs.find_set, if_pos rfl]
    case _ =>
      intro q hq1 hq2 hq3
      rw [Fs.find_set, if_neg hq1, Fs.find_set, if_neg hq3,
        Fs.find_remove, if_neg hq1, Fs.find_set, if_neg hq2]

/-- C6 witness: the already-installed no-op at the example filesystem and
the double install at a concrete fresh filesystem. -/
theorem install_already_installed_idempotent_witness :
    install (some "/opt/cuckoo/cuckoo") exampleFs "/usr/bin/foo" = (0, exampleFs) ∧
    (∃ fs3,
      install (some "/opt/cuckoo/cuckoo")
          [("/usr/bin", FsObj.directory), ("/usr/bin/foo", FsObj.regular true)]
          ("/usr/bin" ++ "/" ++ "foo") = (0, fs3) ∧
        install (some "/opt/cuckoo/cuckoo") fs3 ("/usr/bin" ++ "/" ++ "foo") = (0, fs3) ∧
        Fs.find fs3 ("/usr/bin" ++ "/" ++ "foo") =
          some (FsObj.symlink "/opt/cuckoo/cuckoo") ∧
        Fs.find fs3 ("/usr/bin" ++ "/." ++ "foo" ++ ".d" ++ "/50-" ++ "foo") =
          some (FsObj.regular true) ∧
        Fs.find fs3 ("/usr/bin" ++ "/." ++ "foo" ++ ".d") = some FsObj.directory ∧
        ∀ q, q ≠ "/usr/bin" ++ "/" ++ "foo" → q ≠ "/usr/bin" ++ "/." ++ "foo" ++ ".d" →
          q ≠ "/usr/bin" ++ "/." ++ "foo" ++ ".d" ++ "/50-" ++ "foo" →
          Fs.find fs3 q =
            Fs.find [("/usr/bin", FsObj.directory), ("/usr/bin/foo", FsObj.regular true)] q) :=
  ⟨install_already_installed_idempotent.1 (some "/opt/cuckoo/cuckoo") exampleFs
      "/usr/bin/foo" "/opt/cuckoo/cuckoo" "/usr/bin" "foo"
      (by decide) (by decide) (by decide),
    install_already_installed_idempotent.2 "/opt/cuckoo/cuckoo"
      [("/usr/bin", FsObj.directory), ("/usr/bin/foo", FsObj.regular true)]
      "/usr/bin" "foo" (by decide) (by decide) (by decide) (by decide) (by decide)
      (by decide) (by decide) (by decide) (by decide)⟩

end Cuckoo
